import Mathlib

/-!
Shallow embedding of the noisy-speech corpus synthesizer in src/mix_audio.py,
together with theorems checking the repository specification against it.

Audio samples (NumPy float arrays in the source) are modelled as lists of real
numbers; NumPy elementwise operations become List.map / List.zipWith.  The
script raises no exception of its own in the numeric layer: NumPy division by
zero and the mean of an empty array yield inf/NaN values rather than errors,
which the total real-number model renders through Lean's total division
(x / 0 = 0).  File I/O (librosa.load, sf.write) is an external boundary and is
abstracted as an explicit fallible parameter where a claim needs it.
-/

namespace MixAudio

/-- RMS of an audio signal, embedding calculate_rms (mix_audio.py lines 23-25):
np.sqrt(np.mean(np.square(audio))).  np.mean of an empty array is NaN (a value,
not an exception); the model renders that junk case as Real.sqrt (0 / 0) = 0
via Lean's total division. -/
noncomputable def calculate_rms (audio : List ℝ) : ℝ :=
  Real.sqrt ((audio.map (fun x => x ^ 2)).sum / audio.length)

/-- SNR-targeted noise scaling, embedding adjust_noise_to_snr (mix_audio.py
lines 28-43): target_noise_rms = speech_rms / 10 ** (target_snr / 10),
adjustment_factor = target_noise_rms / noise_rms, result = noise *
adjustment_factor.  The function performs no zero-RMS guard, exactly as the
source; 10 ** x is real exponentiation (Real.rpow). -/
noncomputable def adjust_noise_to_snr (speech noise : List ℝ) (target_snr : ℝ) : List ℝ :=
  let speech_rms := calculate_rms speech
  let noise_rms := calculate_rms noise
  let target_noise_rms := speech_rms / (10 : ℝ) ^ (target_snr / 10)
  let adjustment_factor := target_noise_rms / noise_rms
  noise.map (fun x => x * adjustment_factor)

/-- Length alignment, embedding lines 71-77 of process_combination: when the
noise is shorter than the speech it is tiled math.ceil(len(speech)/len(noise))
times (np.tile = concatenation of copies), then noise[:len(speech)] truncates
to the target length.  The Nat ceiling division (a + b - 1) / b equals
math.ceil(a / b) for positive b. -/
def align_length (noise : List ℝ) (target_len : ℕ) : List ℝ :=
  let tiled :=
    if noise.length < target_len then
      (List.replicate ((target_len + noise.length - 1) / noise.length) noise).flatten
    else noise
  tiled.take target_len

/-- Peak absolute sample, embedding np.max(np.abs(mixed_audio)) (line 86).
Every |x| is nonnegative, so for a nonempty list the fold over max with base 0
agrees with np.max; np.max raises on an empty array, outside this model. -/
def max_abs_value (l : List ℝ) : ℝ := (l.map (fun x => |x|)).foldr max 0

/-- Mixing and clip-safe normalization, embedding lines 83-88 of
process_combination: mixed_audio = speech + adjusted_noise (elementwise), and
when its peak absolute sample exceeds 1.0 the whole signal is divided by that
peak; otherwise it is returned unchanged. -/
noncomputable def mix_and_normalize (speech adjusted_noise : List ℝ) : List ℝ :=
  let mixed_audio := List.zipWith (fun a b => a + b) speech adjusted_noise
  let peak := max_abs_value mixed_audio
  if peak > 1 then mixed_audio.map (fun x => x / peak) else mixed_audio

/-- One planned combination, embedding the tuple (target_file, noise_file,
level_name, snr_value, idx) appended to tasks in main (line 123).  The SNR
values of the snr_levels table are integers (6, 2, -1). -/
structure WorkItem where
  target_file : String
  noise_file : String
  level_name : String
  snr_value : Int
  idx : Nat

/-- Task planning, embedding the nested loops of main (lines 118-123): for
every target file, for every noise file, for every (level, snr) entry, append
a tuple whose task_idx is len(tasks) + 1 — i.e. its 1-based position in
generation order, which List.enum makes explicit. -/
def plan_tasks (target_files noise_files : List String)
    (snr_levels : List (String × Int)) : List WorkItem :=
  ((target_files.flatMap fun t => noise_files.flatMap fun n =>
      snr_levels.map fun ls => (t, n, ls)).enum).map fun p =>
    { target_file := p.2.1, noise_file := p.2.2.1, level_name := p.2.2.2.1,
      snr_value := p.2.2.2.2, idx := p.1 + 1 }

/-- Per-item worker, embedding process_combination (lines 53-108).  The try
block's body (audio load, resample, align, adjust, mix, file save) crosses the
I/O boundary, so it is abstracted as the parameter body, returning either the
output path or the message of the exception it raised; the except clause
(lines 107-108) converts any such exception into the error string
"Error processing {target} with {noise} at {level} level: {e}". -/
def process_combination (body : WorkItem → Except String String)
    (item : WorkItem) : String :=
  match body item with
  | Except.ok output_path => output_path
  | Except.error e =>
      "Error processing " ++ item.target_file ++ " with " ++ item.noise_file ++
        " at " ++ item.level_name ++ " level: " ++ e

/-- Batch execution, embedding pool.imap(process_combination, tasks) collected
into a list (lines 133-134): multiprocessing.Pool.imap yields results in
submission order, i.e. a map over the task list. -/
def run_batch (body : WorkItem → Except String String)
    (tasks : List WorkItem) : List String :=
  tasks.map (process_combination body)

/-- Success tally of main (line 137): results not starting with "Error". -/
def success_count (results : List String) : ℕ :=
  (results.filter (fun r => !(r.startsWith "Error"))).length

/-- Failure tally of main (line 138): results starting with "Error". -/
def error_count (results : List String) : ℕ :=
  (results.filter (fun r => r.startsWith "Error")).length

lemma calculate_rms_one : calculate_rms [(1 : ℝ)] = 1 := by
  simp [calculate_rms]

/-- C1: for every speech signal and every noise signal with nonzero RMS and
every real target SNR in dB, adjust_noise_to_snr returns the noise with every
sample multiplied by the single factor
(rms(speech) / 10 ^ (target_snr / 10)) / rms(noise) — the 10 ^ (db/10) power
convention, not 10 ^ (db/20). -/
theorem adjust_noise_to_snr_spec (speech noise : List ℝ) (target_snr : ℝ)
    (h : calculate_rms noise ≠ 0) :
    adjust_noise_to_snr speech noise target_snr =
      noise.map (fun x => x *
        ((calculate_rms speech / (10 : ℝ) ^ (target_snr / 10)) /
          calculate_rms noise)) := rfl

/-- Witness for C1 at speech = [1], noise = [1], target SNR 0 dB. -/
theorem adjust_noise_to_snr_spec_witness :
    calculate_rms [(1 : ℝ)] ≠ 0 ∧
    adjust_noise_to_snr [(1 : ℝ)] [(1 : ℝ)] 0 =
      [(1 : ℝ)].map (fun x => x *
        ((calculate_rms [(1 : ℝ)] / (10 : ℝ) ^ ((0 : ℝ) / 10)) /
          calculate_rms [(1 : ℝ)])) := by
  have h : calculate_rms [(1 : ℝ)] ≠ 0 := by rw [calculate_rms_one]; norm_num
  exact ⟨h, adjust_noise_to_snr_spec [1] [1] 0 h⟩

/-- C5 counterexample: at speech = [1] and the silent noise [0] (whose RMS is
0), adjust_noise_to_snr does not fail — no SilentNoiseError exists anywhere in
the code — but returns a signal.  In NumPy the division by zero merely emits a
warning and produces inf/NaN, so noise * adjustment_factor is still an array;
in the real-number model the returned signal is [0]. -/
theorem adjust_noise_to_snr_silent_counterexample :
    calculate_rms [(0 : ℝ)] = 0 ∧
    adjust_noise_to_snr [(1 : ℝ)] [(0 : ℝ)] 0 = [0] := by
  constructor
  · simp [calculate_rms]
  · simp [adjust_noise_to_snr]

/-- C5 amended: the SNR-scaling operation has no zero-RMS guard and never
fails; for every speech and noise signal (including zero-RMS noise) it returns
a signal of the noise's length, each sample multiplied by the division factor
(which in IEEE arithmetic is inf/NaN when rms(noise) = 0, rendered by Lean's
total division). -/
theorem adjust_noise_to_snr_total (speech noise : List ℝ) (target_snr : ℝ) :
    (adjust_noise_to_snr speech noise target_snr).length = noise.length ∧
    adjust_noise_to_snr speech noise target_snr =
      noise.map (fun x => x *
        ((calculate_rms speech / (10 : ℝ) ^ (target_snr / 10)) /
          calculate_rms noise)) :=
  ⟨by simp [adjust_noise_to_snr], rfl⟩

/-- C6 counterexample: on the empty signal calculate_rms does not fail — no
DegenerateSignalError exists anywhere in the code.  np.mean([]) yields NaN (a
float value, not an exception) and np.sqrt propagates it, so a value is
returned; the real-number model renders that junk value as sqrt (0 / 0) = 0. -/
theorem calculate_rms_nil_counterexample : calculate_rms ([] : List ℝ) = 0 := by
  simp [calculate_rms]

/-- C6 amended: calculate_rms never fails; for every signal it returns
sqrt(mean(signal²)), and for an all-zero signal it returns 0. -/
theorem calculate_rms_spec (l : List ℝ) :
    calculate_rms l = Real.sqrt ((l.map (fun x => x ^ 2)).sum / l.length) ∧
    ((∀ x ∈ l, x = 0) → calculate_rms l = 0) := by
  refine ⟨rfl, fun h => ?_⟩
  have hs : (l.map (fun x => x ^ 2)).sum = 0 := by
    refine List.sum_eq_zero fun y hy => ?_
    obtain ⟨x, hx, rfl⟩ := List.mem_map.mp hy
    rw [h x hx]
    ring
  simp [calculate_rms, hs]

/-- Witness for C6 (amended) at the all-zero signal [0, 0]. -/
theorem calculate_rms_spec_witness : calculate_rms [(0 : ℝ), 0] = 0 := by
  refine (calculate_rms_spec [0, 0]).2 ?_
  intro x hx
  rcases List.mem_cons.mp hx with h | h
  · exact h
  · simpa using h

/-- C10: the summary classifies every result string by whether it starts with
"Error", so the success tally plus the error tally equals the number of
results. -/
theorem summary_partition (results : List String) :
    success_count results + error_count results = results.length := by
  induction results with
  | nil => rfl
  | cons r rs ih =>
    cases hb : r.startsWith "Error" <;>
      simp [success_count, error_count, List.filter_cons, hb] at ih ⊢ <;>
      omega

lemma sum_sq_nonneg (l : List ℝ) : 0 ≤ (l.map (fun x => x ^ 2)).sum := by
  refine List.sum_nonneg fun x hx => ?_
  obtain ⟨y, _, rfl⟩ := List.mem_map.mp hx
  positivity

lemma calculate_rms_nonneg (l : List ℝ) : 0 ≤ calculate_rms l :=
  Real.sqrt_nonneg _

lemma calculate_rms_map_mul (l : List ℝ) (c : ℝ) :
    calculate_rms (l.map (fun x => x * c)) = |c| * calculate_rms l := by
  unfold calculate_rms
  rw [List.map_map, List.length_map]
  have h1 : (l.map ((fun x => x ^ 2) ∘ fun x => x * c)).sum =
      (l.map (fun x => x ^ 2)).sum * c ^ 2 := by
    have h0 : ((fun x : ℝ => x ^ 2) ∘ fun x => x * c) = fun x => x ^ 2 * c ^ 2 := by
      funext x
      simp [mul_pow]
    rw [h0]
    exact List.sum_map_mul_right l (fun x => x ^ 2) (c ^ 2)
  rw [h1, mul_div_right_comm,
    Real.sqrt_mul (div_nonneg (sum_sq_nonneg l) (Nat.cast_nonneg _)),
    Real.sqrt_sq_eq_abs, mul_comm]

lemma calculate_rms_adjust (speech noise : List ℝ) (db : ℝ)
    (h : calculate_rms noise ≠ 0) :
    calculate_rms (adjust_noise_to_snr speech noise db) =
      calculate_rms speech / (10 : ℝ) ^ (db / 10) := by
  have hfac : 0 ≤ (calculate_rms speech / (10 : ℝ) ^ (db / 10)) /
      calculate_rms noise := by
    refine div_nonneg (div_nonneg (calculate_rms_nonneg _) ?_) (calculate_rms_nonneg _)
    exact (Real.rpow_pos_of_pos (by norm_num) _).le
  have hdef : adjust_noise_to_snr speech noise db =
      noise.map (fun x => x *
        ((calculate_rms speech / (10 : ℝ) ^ (db / 10)) / calculate_rms noise)) := rfl
  rw [hdef, calculate_rms_map_mul, abs_of_nonneg hfac]
  exact div_mul_cancel₀ _ h

/-- C4: scaling to a target SNR makes the noise RMS exactly
rms(speech) / 10 ^ (db / 10) whenever the noise RMS is nonzero, and the result
is invariant under pre-scaling the noise by any positive constant. -/
theorem rms_of_adjusted_noise (speech noise : List ℝ) (db : ℝ)
    (h : calculate_rms noise ≠ 0) :
    calculate_rms (adjust_noise_to_snr speech noise db) =
      calculate_rms speech / (10 : ℝ) ^ (db / 10) ∧
    ∀ c : ℝ, 0 < c →
      calculate_rms (adjust_noise_to_snr speech (noise.map (fun x => x * c)) db) =
        calculate_rms (adjust_noise_to_snr speech noise db) := by
  refine ⟨calculate_rms_adjust speech noise db h, fun c hc => ?_⟩
  have h2 : calculate_rms (noise.map (fun x => x * c)) ≠ 0 := by
    rw [calculate_rms_map_mul]
    exact mul_ne_zero (abs_ne_zero.mpr hc.ne') h
  rw [calculate_rms_adjust _ _ _ h2, calculate_rms_adjust _ _ _ h]

/-- Witness for C4 at speech = [1], noise = [1], 0 dB, pre-scale constant 2. -/
theorem rms_of_adjusted_noise_witness :
    calculate_rms [(1 : ℝ)] ≠ 0 ∧ (0 : ℝ) < 2 ∧
    calculate_rms (adjust_noise_to_snr [(1 : ℝ)] [(1 : ℝ)] 0) =
      calculate_rms [(1 : ℝ)] / (10 : ℝ) ^ ((0 : ℝ) / 10) ∧
    calculate_rms (adjust_noise_to_snr [(1 : ℝ)]
        ([(1 : ℝ)].map (fun x => x * 2)) 0) =
      calculate_rms (adjust_noise_to_snr [(1 : ℝ)] [(1 : ℝ)] 0) := by
  have h : calculate_rms [(1 : ℝ)] ≠ 0 := by rw [calculate_rms_one]; norm_num
  exact ⟨h, by norm_num, (rms_of_adjusted_noise [1] [1] 0 h).1,
    (rms_of_adjusted_noise [1] [1] 0 h).2 2 (by norm_num)⟩

lemma max_abs_value_cons (x : ℝ) (l : List ℝ) :
    max_abs_value (x :: l) = max |x| (max_abs_value l) := rfl

lemma max_abs_value_map_div (l : List ℝ) (c : ℝ) (hc : 0 < c) :
    max_abs_value (l.map (fun x => x / c)) = max_abs_value l / c := by
  induction l with
  | nil => simp [max_abs_value]
  | cons x xs ih =>
    rw [List.map_cons, max_abs_value_cons, max_abs_value_cons, ih,
      abs_div, abs_of_pos hc, max_div_div_right hc.le]

/-- C2: mixing returns the elementwise sum unchanged when its peak absolute
sample is at most 1, divides the whole sum by its peak when the peak exceeds
1, and in all cases the returned signal's peak absolute value is at most 1. -/
theorem mix_and_normalize_spec (speech adjusted_noise : List ℝ)
    (hlen : speech.length = adjusted_noise.length) :
    (max_abs_value (List.zipWith (fun a b => a + b) speech adjusted_noise) ≤ 1 →
      mix_and_normalize speech adjusted_noise =
        List.zipWith (fun a b => a + b) speech adjusted_noise) ∧
    (1 < max_abs_value (List.zipWith (fun a b => a + b) speech adjusted_noise) →
      mix_and_normalize speech adjusted_noise =
        (List.zipWith (fun a b => a + b) speech adjusted_noise).map
          (fun x => x /
            max_abs_value (List.zipWith (fun a b => a + b) speech adjusted_noise))) ∧
    max_abs_value (mix_and_normalize speech adjusted_noise) ≤ 1 := by
  have hdef : mix_and_normalize speech adjusted_noise =
      if max_abs_value (List.zipWith (fun a b => a + b) speech adjusted_noise) > 1
      then (List.zipWith (fun a b => a + b) speech adjusted_noise).map
        (fun x => x /
          max_abs_value (List.zipWith (fun a b => a + b) speech adjusted_noise))
      else List.zipWith (fun a b => a + b) speech adjusted_noise := rfl
  by_cases hpk :
      max_abs_value (List.zipWith (fun a b => a + b) speech adjusted_noise) > 1
  · have hpos :
        (0 : ℝ) < max_abs_value (List.zipWith (fun a b => a + b) speech adjusted_noise) :=
      lt_trans zero_lt_one hpk
    have heq : mix_and_normalize speech adjusted_noise =
        (List.zipWith (fun a b => a + b) speech adjusted_noise).map
          (fun x => x /
            max_abs_value (List.zipWith (fun a b => a + b) speech adjusted_noise)) := by
      rw [hdef, if_pos hpk]
    refine ⟨fun hle => absurd hpk (not_lt.mpr hle), fun _ => heq, ?_⟩
    rw [heq, max_abs_value_map_div _ _ hpos, div_self (ne_of_gt hpos)]
  · have hle :
        max_abs_value (List.zipWith (fun a b => a + b) speech adjusted_noise) ≤ 1 :=
      not_lt.mp hpk
    have heq : mix_and_normalize speech adjusted_noise =
        List.zipWith (fun a b => a + b) speech adjusted_noise := by
      rw [hdef, if_neg hpk]
    exact ⟨fun _ => heq, fun hgt => absurd hgt hpk, by rw [heq]; exact hle⟩

/-- Witness for C2 at speech = [1/2], adjusted noise = [1/4]: the sum [3/4]
has peak 3/4 which does not exceed 1, so the output is the sum unchanged. -/
theorem mix_and_normalize_spec_witness :
    ([(1 / 2 : ℝ)].length = [(1 / 4 : ℝ)].length) ∧
    max_abs_value (List.zipWith (fun a b => a + b) [(1 / 2 : ℝ)] [(1 / 4 : ℝ)]) ≤ 1 ∧
    mix_and_normalize [(1 / 2 : ℝ)] [(1 / 4 : ℝ)] =
      List.zipWith (fun a b => a + b) [(1 / 2 : ℝ)] [(1 / 4 : ℝ)] := by
  have hpk :
      max_abs_value (List.zipWith (fun a b => a + b) [(1 / 2 : ℝ)] [(1 / 4 : ℝ)]) ≤ 1 := by
    rw [show List.zipWith (fun a b : ℝ => a + b) [(1 / 2 : ℝ)] [(1 / 4 : ℝ)] =
      [(3 / 4 : ℝ)] by norm_num]
    rw [max_abs_value_cons]
    have : |(3 / 4 : ℝ)| = 3 / 4 := abs_of_nonneg (by norm_num)
    rw [this]
    simp [max_abs_value]
    norm_num
  exact ⟨rfl, hpk, (mix_and_normalize_spec [(1 / 2 : ℝ)] [(1 / 4 : ℝ)] rfl).1 hpk⟩

lemma le_ceil_mul (L n : ℕ) (hn : 0 < n) : L ≤ (L + n - 1) / n * n := by
  have h : L ≤ n • (L ⌈/⌉ n) := le_smul_ceilDiv hn
  rw [Nat.ceilDiv_eq_add_pred_div, smul_eq_mul, mul_comm] at h
  exact h

/-- C3: length alignment always yields exactly the target length; when the
target fits inside the noise it is the plain prefix (no tiling), and when the
noise is shorter the noise is tiled ceil(target/len) times end-to-end and then
truncated to the target length. -/
theorem align_length_spec (noise : List ℝ) (target_len : ℕ)
    (hn : noise ≠ []) (hL : 1 ≤ target_len) :
    (align_length noise target_len).length = target_len ∧
    (target_len ≤ noise.length →
      align_length noise target_len = noise.take target_len) ∧
    (noise.length < target_len →
      align_length noise target_len =
        ((List.replicate ((target_len + noise.length - 1) / noise.length)
          noise).flatten).take target_len) := by
  have hn0 : 0 < noise.length := List.length_pos.mpr hn
  by_cases hlt : noise.length < target_len
  · have hdef : align_length noise target_len =
        ((List.replicate ((target_len + noise.length - 1) / noise.length)
          noise).flatten).take target_len := by
      unfold align_length
      rw [if_pos hlt]
    refine ⟨?_, fun hle => absurd hlt (not_lt.mpr hle), fun _ => hdef⟩
    rw [hdef, List.length_take, List.length_flatten]
    have hrep : (List.replicate ((target_len + noise.length - 1) / noise.length)
        noise).map List.length =
        List.replicate ((target_len + noise.length - 1) / noise.length)
          noise.length := by
      simp only [List.map_replicate]
    rw [hrep, List.sum_replicate, smul_eq_mul]
    exact Nat.min_eq_left (le_ceil_mul target_len noise.length hn0)
  · have hdef : align_length noise target_len = noise.take target_len := by
      unfold align_length
      rw [if_neg hlt]
    refine ⟨?_, fun _ => hdef, fun hgt => absurd hgt hlt⟩
    rw [hdef, List.length_take]
    exact Nat.min_eq_left (by omega)

/-- Witness for C3 at noise = [1, 2] and target length 5 (tiling case) and at
target length 1 (prefix case). -/
theorem align_length_spec_witness :
    ([(1 : ℝ), 2] ≠ ([] : List ℝ)) ∧ 1 ≤ 5 ∧
    (align_length [(1 : ℝ), 2] 5).length = 5 ∧
    (align_length [(1 : ℝ), 2] 1).length = 1 ∧
    align_length [(1 : ℝ), 2] 1 = [(1 : ℝ), 2].take 1 := by
  have hn : [(1 : ℝ), 2] ≠ ([] : List ℝ) := by simp
  refine ⟨hn, by norm_num, (align_length_spec [(1 : ℝ), 2] 5 hn (by norm_num)).1,
    (align_length_spec [(1 : ℝ), 2] 1 hn (by norm_num)).1,
    (align_length_spec [(1 : ℝ), 2] 1 hn (by norm_num)).2.1 (by norm_num)⟩

lemma length_flatMap_const {α β : Type} (l : List α) (f : α → List β) (k : ℕ)
    (h : ∀ a, (f a).length = k) : (l.flatMap f).length = l.length * k := by
  induction l with
  | nil => simp
  | cons a t ih =>
    rw [List.flatMap_cons, List.length_append, h, ih, List.length_cons]
    ring

lemma plan_tasks_map_idx (targets noises : List String)
    (levels : List (String × Int)) :
    (plan_tasks targets noises levels).map WorkItem.idx =
      (List.range ((targets.flatMap fun t => noises.flatMap fun n =>
        levels.map fun ls => (t, n, ls)).length)).map (fun i => i + 1) := by
  unfold plan_tasks
  rw [List.map_map]
  have h1 : (WorkItem.idx ∘ fun p : ℕ × (String × String × String × Int) =>
      ({ target_file := p.2.1, noise_file := p.2.2.1, level_name := p.2.2.2.1,
         snr_value := p.2.2.2.2, idx := p.1 + 1 } : WorkItem)) =
      (fun i => i + 1) ∘ Prod.fst := rfl
  rw [h1, ← List.map_map, List.enum_map_fst]

/-- C8: planning the full cross-product yields exactly
len(targets) * len(noises) * len(levels) work items, duplicate-free, with
strictly increasing sequence indices in generation order. -/
theorem plan_tasks_spec (targets noises : List String)
    (levels : List (String × Int)) :
    (plan_tasks targets noises levels).length =
      targets.length * noises.length * levels.length ∧
    (plan_tasks targets noises levels).Nodup ∧
    (plan_tasks targets noises levels).Pairwise (fun a b => a.idx < b.idx) := by
  have hlen : (targets.flatMap fun t => noises.flatMap fun n =>
      levels.map fun ls => (t, n, ls)).length =
      targets.length * (noises.length * levels.length) := by
    refine length_flatMap_const _ _ _ fun t => ?_
    refine length_flatMap_const _ _ _ fun n => ?_
    exact List.length_map _ _
  refine ⟨?_, ?_, ?_⟩
  · unfold plan_tasks
    rw [List.length_map, List.enum_length, hlen, mul_assoc]
  · refine List.Nodup.of_map WorkItem.idx ?_
    rw [plan_tasks_map_idx]
    exact (List.nodup_range _).map (add_left_injective 1)
  · have h2 : ((plan_tasks targets noises levels).map WorkItem.idx).Pairwise
        (fun a b => a < b) := by
      rw [plan_tasks_map_idx]
      refine List.pairwise_map.mpr ?_
      exact (List.pairwise_lt_range _).imp (by omega)
    exact List.pairwise_map.mp h2

/-- C7: the batch produces one result per work item in submission order (the
result list has the item count's length and its i-th entry is the worker
output for the i-th item), and an exception raised inside any item's body is
caught at the per-item boundary and converted into an error string naming the
offending speech/noise/level combination — never propagated to other items. -/
theorem run_batch_isolated (body : WorkItem → Except String String)
    (tasks : List WorkItem) :
    (run_batch body tasks).length = tasks.length ∧
    (∀ i : ℕ, (run_batch body tasks)[i]? =
      (tasks[i]?).map (process_combination body)) ∧
    ∀ item ∈ tasks, ∀ e, body item = Except.error e →
      process_combination body item =
        "Error processing " ++ item.target_file ++ " with " ++ item.noise_file ++
          " at " ++ item.level_name ++ " level: " ++ e := by
  refine ⟨by simp [run_batch], fun i => ?_, fun item _ e he => ?_⟩
  · simp [run_batch]
  · unfold process_combination
    rw [he]

/-- Witness for C7: a single item whose body raises is converted into the
error string, via the theorem applied at that concrete batch. -/
theorem run_batch_isolated_witness :
    process_combination (fun _ => Except.error "boom")
        ⟨"t.wav", "n.wav", "easy", 6, 1⟩ =
      "Error processing " ++ "t.wav" ++ " with " ++ "n.wav" ++
        " at " ++ "easy" ++ " level: " ++ "boom" :=
  (run_batch_isolated (fun _ => Except.error "boom")
      [⟨"t.wav", "n.wav", "easy", 6, 1⟩]).2.2
    ⟨"t.wav", "n.wav", "easy", 6, 1⟩ (List.mem_singleton_self _) "boom" rfl

/-- C9 counterexample: with an empty speech source set the program does not
abort — no ConfigurationError exists anywhere in the code.  main plans zero
combinations, the pool maps over an empty task list, and the summary counts
zero successes and zero errors: a normal completed run, not a failure. -/
theorem empty_speech_no_abort :
    plan_tasks [] ["n.wav"] [("easy", 6)] = [] ∧
    run_batch (fun _ => Except.ok "out.wav")
      (plan_tasks [] ["n.wav"] [("easy", 6)]) = [] ∧
    success_count (run_batch (fun _ => Except.ok "out.wav")
      (plan_tasks [] ["n.wav"] [("easy", 6)])) = 0 ∧
    error_count (run_batch (fun _ => Except.ok "out.wav")
      (plan_tasks [] ["n.wav"] [("easy", 6)])) = 0 :=
  ⟨rfl, rfl, rfl, rfl⟩

/-- C9 amended: the code performs no configuration check; when the speech set,
the noise set, or the SNR-level mapping is empty, planning yields the empty
work list and the batch completes normally with zero results (it is the
planning arithmetic, not a ConfigurationError, that makes the run dispatch no
work). -/
theorem plan_tasks_empty_config (body : WorkItem → Except String String)
    (targets noises : List String) (levels : List (String × Int))
    (h : targets = [] ∨ noises = [] ∨ levels = []) :
    plan_tasks targets noises levels = [] ∧
    run_batch body (plan_tasks targets noises levels) = [] := by
  have hp : plan_tasks targets noises levels = [] := by
    rcases h with rfl | rfl | rfl <;> simp [plan_tasks]
  exact ⟨hp, by rw [hp]; rfl⟩

/-- Witness for C9 (amended) at an empty speech set. -/
theorem plan_tasks_empty_config_witness :
    (([] : List String) = [] ∨ ["n.wav"] = ([] : List String) ∨
      [("easy", (6 : Int))] = ([] : List (String × Int))) ∧
    plan_tasks [] ["n.wav"] [("easy", 6)] = [] ∧
    run_batch (fun _ => Except.ok "o")
      (plan_tasks [] ["n.wav"] [("easy", 6)]) = [] := by
  have h : ([] : List String) = [] ∨ ["n.wav"] = ([] : List String) ∨
      [("easy", (6 : Int))] = ([] : List (String × Int)) := Or.inl rfl
  exact ⟨h, plan_tasks_empty_config (fun _ => Except.ok "o") _ _ _ h⟩

end MixAudio
